import Mathlib

/-!
Verification of the data-cleaning pipeline in `scripts/clean_data.py`
(class `DataPreprocessing`).

The pandas `DataFrame` is embedded shallowly: a table is a list of rows and a
row is an association list from column names to cell values.  Cell values are
modelled by the inductive type `Val`: a missing value (`Val.null`, standing
for the frame's null, as tested by `pd.isnull`), a numeric value (a rational,
standing for the frame's numeric cells), a string, a parsed date-time
(standing for `pd.Timestamp`), and an ordered-categorical label carrying its
category list (standing for a cell of an ordered `CategoricalDtype`).

The external reprojection routine (`pyproj.transform`) is out of scope per the
repository: it is threaded through as an arbitrary pure function
`reproject : ℚ → ℚ → ℚ × ℚ` returning a (latitude, longitude) pair.
-/

namespace AnimalRescues

/-- A structured date-time value, as produced by `pd.to_datetime` with the
format `%d/%m/%Y %H:%M` (so second and finer fields are zero and omitted). -/
structure DateTime where
  year : ℕ
  month : ℕ
  day : ℕ
  hour : ℕ
  minute : ℕ
deriving DecidableEq, Repr

/-- A cell of the table. -/
inductive Val where
  | null
  | num (q : ℚ)
  | str (s : String)
  | dt (t : DateTime)
  | cat (s : String) (domain : List String)
deriving DecidableEq, Repr

/-- A row: an association list from column names to cell values (first binding
wins, mirroring a frame row's unique column names). -/
abbrev Row := List (String × Val)

/-- A table: the ordered list of rows of the frame. -/
abbrev Table := List Row

/-- Reading a cell of a row (`row["c"]`).  A missing column reads as null;
the pipeline only reads columns it assumes present. -/
def getVal : Row → String → Val
  | [], _ => Val.null
  | (k', v) :: rest, k => if k' = k then v else getVal rest k

/-- Writing a cell of a row (`data.at[index, "c"] = v`, and column assignment
`data["c"] = ...` restricted to one row): replaces the binding when the column
exists and appends a new last column otherwise, as pandas does. -/
def setVal : Row → String → Val → Row
  | [], k, v => [(k, v)]
  | (k', v') :: rest, k, v =>
    if k' = k then (k, v) :: rest else (k', v') :: setVal rest k v

/-- Deleting a column of a row (`del data[key]` at row level).  Deleting an
absent column is a no-op. -/
def delKey (r : Row) (k : String) : Row :=
  r.filter (fun p => p.1 ≠ k)

/-- Column membership at row level (`key in data`). -/
def hasKey : Row → String → Bool
  | [], _ => false
  | (k', _) :: rest, k => if k' = k then true else hasKey rest k

/-- `pd.isnull` on a cell. -/
def isnull : Val → Bool
  | Val.null => true
  | _ => false

/-- Python truthiness of a cell, as in `if row["easting_rounded"]:`.
Missing values are modelled as Python `None` (falsy); a number is truthy iff
non-zero, a string iff non-empty. -/
def pyTruthy : Val → Bool
  | Val.null => false
  | Val.num q => q ≠ 0
  | Val.str s => s ≠ ""
  | Val.dt _ => true
  | Val.cat _ _ => true

/-- The numeric content of a cell, for feeding the reprojection. -/
def toRat : Val → ℚ
  | Val.num q => q
  | _ => 0

/-- The row-filling phase of `convert_to_latlon` (the `for index, row in
data.iterrows()` loop body): when `latitude` is null and `easting_rounded` is
truthy, write the reprojected pair into `latitude` / `longitude`. -/
def fillLatLon (reproject : ℚ → ℚ → ℚ × ℚ) (r : Row) : Row :=
  if isnull (getVal r "latitude") then
    if pyTruthy (getVal r "easting_rounded") then
      let p := reproject (toRat (getVal r "easting_rounded"))
                         (toRat (getVal r "northing_rounded"))
      setVal (setVal r "latitude" (Val.num p.1)) "longitude" (Val.num p.2)
    else r
  else r

/-- The column-dropping phase of `convert_to_latlon` (the
`for key in [...]: if key in data: del data[key]` loop), at row level. -/
def dropPlanar (r : Row) : Row :=
  delKey (delKey (delKey (delKey r "easting_rounded") "northing_rounded")
    "easting_m") "northing_m"

/-- The four planar / metric columns dropped by `convert_to_latlon`. -/
def planarCols : List String :=
  ["easting_rounded", "northing_rounded", "easting_m", "northing_m"]

/-- `DataPreprocessing.convert_to_latlon`: fill missing geographic coordinates
row by row, then drop the planar columns.  The two source loops are fused into
one map since the fill loop is row-local and the deletions are column-local. -/
def convert_to_latlon (reproject : ℚ → ℚ → ℚ × ℚ) (t : Table) : Table :=
  t.map (fun r => dropPlanar (fillLatLon reproject r))

/-- Python `str.lower`, per character (the source data is ASCII; Lean's
`Char.toLower` likewise lowercases the basic latin letters). -/
def strLower (s : String) : String :=
  String.mk (s.data.map Char.toLower)

/-- The `.str.lower()` accessor on a cell: lowercases a string, and yields
null on a null or non-string cell, as pandas' `.str` accessor does. -/
def lowerVal : Val → Val
  | Val.str s => Val.str (strLower s)
  | _ => Val.null

/-- `DataPreprocessing.lower_case_animal_type`:
`data["animal_group_parent"] = data["animal_group_parent"].str.lower()`. -/
def lower_case_animal_type (t : Table) : Table :=
  t.map (fun r =>
    setVal r "animal_group_parent" (lowerVal (getVal r "animal_group_parent")))

/-- Split a character list on a separator character (groups between
separators, in order). -/
def splitOnChar (c : Char) : List Char → List (List Char)
  | [] => [[]]
  | x :: xs =>
    let r := splitOnChar c xs
    if x = c then [] :: r
    else
      match r with
      | [] => [[x]]
      | g :: gs => (x :: g) :: gs

/-- Digits to a natural number, most significant first. -/
def digitsToNat (l : List Char) : ℕ :=
  l.foldl (fun acc c => 10 * acc + (c.toNat - 48)) 0

/-- A numeric field of at most `maxLen` digits (strptime-style fields such as
`%d` accept one or two digits). -/
def parseField (l : List Char) (maxLen : ℕ) : Option ℕ :=
  if l ≠ [] ∧ l.length ≤ maxLen ∧ l.all Char.isDigit = true then
    some (digitsToNat l)
  else none

/-- Gregorian leap year. -/
def isLeap (y : ℕ) : Bool :=
  y % 4 == 0 && (y % 100 != 0 || y % 400 == 0)

/-- Days in a month of the proleptic Gregorian calendar. -/
def daysInMonth (y m : ℕ) : ℕ :=
  if m = 2 then (if isLeap y then 29 else 28)
  else if m = 4 ∨ m = 6 ∨ m = 9 ∨ m = 11 then 30 else 31

/-- Calendar validity of a parsed date-time (year bounded as in `datetime`,
which rejects year 0). -/
def DateTime.Valid (t : DateTime) : Prop :=
  1 ≤ t.year ∧ t.year ≤ 9999 ∧ 1 ≤ t.month ∧ t.month ≤ 12 ∧
  1 ≤ t.day ∧ t.day ≤ daysInMonth t.year t.month ∧ t.hour ≤ 23 ∧ t.minute ≤ 59

instance (t : DateTime) : Decidable t.Valid :=
  inferInstanceAs (Decidable (1 ≤ t.year ∧ t.year ≤ 9999 ∧ 1 ≤ t.month ∧
    t.month ≤ 12 ∧ 1 ≤ t.day ∧ t.day ≤ daysInMonth t.year t.month ∧
    t.hour ≤ 23 ∧ t.minute ≤ 59))

/-- Parser for the fixed format `%d/%m/%Y %H:%M` used by
`convert_to_datetime_format`: day and month of one or two digits, a four-digit
year, hour and minute of one or two digits, with the calendar range checks a
date-time parser performs.  A non-conforming string parses to `none`. -/
def parseDMYHM (s : String) : Option DateTime :=
  match splitOnChar ' ' s.data with
  | [datePart, timePart] =>
    match splitOnChar '/' datePart, splitOnChar ':' timePart with
    | [df, mf, yf], [hf, mif] =>
      match parseField df 2, parseField mf 2, parseField yf 4,
            parseField hf 2, parseField mif 2 with
      | some d, some m, some y, some h, some mi =>
        if yf.length = 4 ∧ 1 ≤ y ∧ 1 ≤ m ∧ m ≤ 12 ∧ 1 ≤ d ∧
            d ≤ daysInMonth y m ∧ h ≤ 23 ∧ mi ≤ 59 then
          some ⟨y, m, d, h, mi⟩
        else none
      | _, _, _, _, _ => none
    | _, _ => none
  | _ => none

/-- `pd.to_datetime` with a fixed format, on one cell: a string must parse, a
null passes through (as `NaT`), an already-parsed date-time passes through,
and any other cell is an error. -/
def parseCell : Val → Option Val
  | Val.str s => (parseDMYHM s).map Val.dt
  | Val.null => some Val.null
  | Val.dt t => some (Val.dt t)
  | _ => none

/-- `DataPreprocessing.convert_to_datetime_format`:
`data["date_time_of_call"] = pd.to_datetime(data["date_time_of_call"],
format="%d/%m/%Y %H:%M")`.  The conversion is all-or-nothing over the column:
any unparsable cell raises, so the pass yields `none` (no partially converted
table). -/
def convert_to_datetime_format : Table → Option Table
  | [] => some []
  | r :: rest =>
    match parseCell (getVal r "date_time_of_call") with
    | none => none
    | some v =>
      match convert_to_datetime_format rest with
      | none => none
      | some rest' => some (setVal r "date_time_of_call" v :: rest')

/-- The comparison `data["latitude"] > 30` on one cell: true exactly for a
numeric cell above 30 (a null compares false, as NaN does in pandas). -/
def valGt30 : Val → Bool
  | Val.num q => 30 < q
  | _ => false

/-- `DataPreprocessing.remove_incoherent_values`:
`return data[data["latitude"] > 30]`. -/
def remove_incoherent_values (t : Table) : Table :=
  t.filter (fun r => valGt30 (getVal r "latitude"))

/-- Worker for `drop_duplicates`: keep a row iff it has not been seen yet. -/
def dropDupsAux : List Row → Table → Table
  | _, [] => []
  | seen, r :: rest =>
    if r ∈ seen then dropDupsAux seen rest
    else r :: dropDupsAux (r :: seen) rest

/-- `DataPreprocessing.remove_duplicate_values`: `data.drop_duplicates()`,
keeping the first occurrence of each row and preserving the order. -/
def remove_duplicate_values (t : Table) : Table :=
  dropDupsAux [] t

/-- Deduplication written after the spec's words, for refinement comparison:
the first occurrence of each row is retained, and later exact duplicates of it
are dropped. -/
def dedupKeepFirstSpec : Table → Table
  | [] => []
  | r :: rest => r :: dedupKeepFirstSpec (rest.filter (fun x => x ≠ r))
termination_by t => t.length
decreasing_by
  simpa using Nat.lt_succ_of_le (List.length_filter_le _ rest)

/-- Modelled from the spec: `delete_feature` is defined in `scripts/utils.py`,
which is not in the source tree.  Per the spec it removes the named column
when present, and deleting an already-absent column is a no-op, not an
error. -/
def delete_feature (t : Table) (c : String) : Table :=
  t.map (fun r => delKey r c)

/-- The fixed column list deleted by `remove_unused_columns`, in source
order. -/
def unusedColumns : List String :=
  ["incident_number", "type_of_incident", "cal_year", "fin_year", "uprn",
   "usrn", "hourly_notional_cost", "pump_hours_total", "postcode_district",
   "street", "stn_ground_name", "borough_code", "ward", "ward_code",
   "final_description"]

/-- `DataPreprocessing.remove_unused_columns`: the chain of `delete_feature`
calls over the hardcoded column list. -/
def remove_unused_columns (t : Table) : Table :=
  unusedColumns.foldl delete_feature t

/-- The twelve month names, in calendar order (the categories of the ordered
`month_type` dtype). -/
def monthNames : List String :=
  ["January", "February", "March", "April", "May", "June", "July", "August",
   "September", "October", "November", "December"]

/-- The seven weekday names, in calendar order (the categories of the ordered
`day_type` dtype). -/
def dayNames : List String :=
  ["Monday", "Tuesday", "Wednesday", "Thursday", "Friday", "Saturday",
   "Sunday"]

/-- Modelled from the spec: `month_dic` is defined in `scripts/utils.py`,
which is not in the source tree.  Per the spec it maps the date-time's numeric
month (1–12) to the month name of the fixed January…December domain. -/
def month_dic (m : ℕ) : Option String :=
  if 1 ≤ m ∧ m ≤ 12 then some (monthNames.getD (m - 1) "") else none

/-- Modelled from the spec: `dayofweek_dic` is defined in `scripts/utils.py`,
which is not in the source tree.  Per the spec it maps the date-time's numeric
weekday (0 = Monday, as `Series.dt.day_of_week` numbers them) to the weekday
name of the fixed Monday…Sunday domain. -/
def dayofweek_dic (d : ℕ) : Option String :=
  if d ≤ 6 then some (dayNames.getD d "") else none

/-- `DataFrame.replace({col: dic})` on one cell: a numeric cell equal to a key
of the dictionary is replaced by the mapped name; any other cell is left
unchanged. -/
def replaceVal (dic : ℕ → Option String) (v : Val) : Val :=
  match v with
  | Val.num q =>
    if q.den = 1 ∧ 0 ≤ q.num then
      match dic q.num.toNat with
      | some s => Val.str s
      | none => v
    else v
  | _ => v

/-- `astype` to an ordered `CategoricalDtype` on one cell: a string among the
categories becomes a categorical label carrying the ordered domain; anything
else becomes null, as pandas maps values outside the categories to NaN. -/
def toCategorical (dom : List String) : Val → Val
  | Val.str s => if s ∈ dom then Val.cat s dom else Val.null
  | _ => Val.null

/-- Days since 0000-03-01 of a proleptic-Gregorian date (valid for
`1 ≤ y`), the standard civil-calendar day count. -/
def daysFromCivil (y m d : ℕ) : ℕ :=
  let y' := if m ≤ 2 then y - 1 else y
  let era := y' / 400
  let yoe := y' % 400
  let doy := (153 * (if 2 < m then m - 3 else m + 9) + 2) / 5 + (d - 1)
  let doe := yoe * 365 + yoe / 4 - yoe / 100 + doy
  era * 146097 + doe

/-- `Series.dt.day_of_week` of a date: 0 = Monday, …, 6 = Sunday
(1970-01-01, day number 719468, was a Thursday = 3). -/
def DateTime.dayOfWeek (t : DateTime) : ℕ :=
  (daysFromCivil t.year t.month t.day + 2) % 7

/-- The `.dt.year` accessor on a cell. -/
def dtYear : Val → Val
  | Val.dt t => Val.num t.year
  | _ => Val.null

/-- The `.dt.month` accessor on a cell. -/
def dtMonth : Val → Val
  | Val.dt t => Val.num t.month
  | _ => Val.null

/-- The `.dt.day_of_week` accessor on a cell. -/
def dtDow : Val → Val
  | Val.dt t => Val.num t.dayOfWeek
  | _ => Val.null

/-- The `.dt.hour` accessor on a cell. -/
def dtHour : Val → Val
  | Val.dt t => Val.num t.hour
  | _ => Val.null

/-- `DataPreprocessing.add_columns_for_date` at row level, following the
source statement order: assign `year`, `month`, `dayofweek` from the
date-time accessors, replace the numeric month and weekday through the
dictionaries, assign `hour`, then cast `month` and `dayofweek` to the ordered
categorical dtypes. -/
def addDateRow (r : Row) : Row :=
  let v := getVal r "date_time_of_call"
  let r1 := setVal r "year" (dtYear v)
  let r2 := setVal r1 "month" (dtMonth v)
  let r3 := setVal r2 "dayofweek" (dtDow v)
  let r4 := setVal r3 "month" (replaceVal month_dic (getVal r3 "month"))
  let r5 := setVal r4 "dayofweek"
    (replaceVal dayofweek_dic (getVal r4 "dayofweek"))
  let r6 := setVal r5 "hour" (dtHour v)
  let r7 := setVal r6 "month" (toCategorical monthNames (getVal r6 "month"))
  let r8 := setVal r7 "dayofweek"
    (toCategorical dayNames (getVal r7 "dayofweek"))
  r8

/-- `DataPreprocessing.add_columns_for_date` over the table. -/
def add_columns_for_date (t : Table) : Table :=
  t.map addDateRow

/-! ## Row-level lemmas about cell access, update and column deletion -/

theorem getVal_setVal_same (r : Row) (k : String) (v : Val) :
    getVal (setVal r k v) k = v := by
  induction r with
  | nil => simp [setVal, getVal]
  | cons p rest ih =>
    obtain ⟨a, b⟩ := p
    by_cases h : a = k
    · simp [setVal, h, getVal]
    · simp [setVal, h, getVal, ih]

theorem getVal_setVal_ne (r : Row) {k k' : String} (h : k' ≠ k) (v : Val) :
    getVal (setVal r k v) k' = getVal r k' := by
  induction r with
  | nil => simp [setVal, getVal, Ne.symm h]
  | cons p rest ih =>
    obtain ⟨a, b⟩ := p
    by_cases ha : a = k
    · subst ha
      simp [setVal, getVal, Ne.symm h]
    · simp only [setVal, if_neg ha, getVal]
      by_cases ha' : a = k'
      · simp [ha']
      · simp [ha', ih]

theorem hasKey_setVal (r : Row) (k k' : String) (v : Val) :
    hasKey (setVal r k v) k' = if k = k' then true else hasKey r k' := by
  induction r with
  | nil => simp [setVal, hasKey]
  | cons p rest ih =>
    obtain ⟨a, b⟩ := p
    by_cases ha : a = k
    · subst ha
      by_cases h' : a = k' <;> simp [setVal, hasKey, h']
    · simp only [setVal, if_neg ha, hasKey]
      by_cases h' : a = k'
      · simp [h']
      · simp [h', ih]

theorem hasKey_setVal_true (r : Row) (k k' : String) (v : Val)
    (h : hasKey r k' = true) : hasKey (setVal r k v) k' = true := by
  rw [hasKey_setVal]
  by_cases hk : k = k' <;> simp [hk, h]

theorem hasKey_delKey_same (r : Row) (k : String) :
    hasKey (delKey r k) k = false := by
  induction r with
  | nil => simp [delKey, hasKey]
  | cons p rest ih =>
    obtain ⟨a, b⟩ := p
    by_cases h : a = k
    · simpa [delKey, List.filter, h] using ih
    · simpa [delKey, List.filter, h, hasKey] using ih

theorem hasKey_delKey_ne (r : Row) {k k' : String} (h : k' ≠ k) :
    hasKey (delKey r k) k' = hasKey r k' := by
  induction r with
  | nil => simp [delKey, hasKey]
  | cons p rest ih =>
    obtain ⟨a, b⟩ := p
    by_cases ha : a = k
    · subst ha
      simpa [delKey, List.filter, hasKey, Ne.symm h] using ih
    · by_cases ha' : a = k'
      · simp [delKey, List.filter, ha, ha', hasKey, h]
      · simpa [delKey, List.filter, ha, ha', hasKey] using ih

theorem getVal_delKey_ne (r : Row) {k k' : String} (h : k' ≠ k) :
    getVal (delKey r k) k' = getVal r k' := by
  induction r with
  | nil => simp [delKey, getVal]
  | cons p rest ih =>
    obtain ⟨a, b⟩ := p
    by_cases ha : a = k
    · subst ha
      simpa [delKey, List.filter, getVal, Ne.symm h] using ih
    · by_cases ha' : a = k'
      · simp [delKey, List.filter, ha, ha', getVal, h]
      · simpa [delKey, List.filter, ha, ha', getVal] using ih

theorem setVal_setVal (r : Row) (k : String) (v v' : Val) :
    setVal (setVal r k v) k v' = setVal r k v' := by
  induction r with
  | nil => simp [setVal]
  | cons p rest ih =>
    obtain ⟨a, b⟩ := p
    by_cases h : a = k
    · simp [setVal, h]
    · simp [setVal, h, ih]

theorem hasKey_dropPlanar_mem (r : Row) (c : String) (hc : c ∈ planarCols) :
    hasKey (dropPlanar r) c = false := by
  simp only [planarCols, List.mem_cons, List.not_mem_nil, or_false] at hc
  unfold dropPlanar
  rcases hc with rfl | rfl | rfl | rfl
  · rw [hasKey_delKey_ne _ (by decide), hasKey_delKey_ne _ (by decide),
      hasKey_delKey_ne _ (by decide)]
    exact hasKey_delKey_same _ _
  · rw [hasKey_delKey_ne _ (by decide), hasKey_delKey_ne _ (by decide)]
    exact hasKey_delKey_same _ _
  · rw [hasKey_delKey_ne _ (by decide)]
    exact hasKey_delKey_same _ _
  · exact hasKey_delKey_same _ _

theorem hasKey_dropPlanar_not_mem (r : Row) (k : String)
    (h : k ∉ planarCols) : hasKey (dropPlanar r) k = hasKey r k := by
  simp only [planarCols, List.mem_cons, List.not_mem_nil, or_false, not_or] at h
  obtain ⟨h1, h2, h3, h4⟩ := h
  unfold dropPlanar
  rw [hasKey_delKey_ne _ h4, hasKey_delKey_ne _ h3, hasKey_delKey_ne _ h2,
    hasKey_delKey_ne _ h1]

theorem getVal_dropPlanar_not_mem (r : Row) (k : String)
    (h : k ∉ planarCols) : getVal (dropPlanar r) k = getVal r k := by
  simp only [planarCols, List.mem_cons, List.not_mem_nil, or_false, not_or] at h
  obtain ⟨h1, h2, h3, h4⟩ := h
  unfold dropPlanar
  rw [getVal_delKey_ne _ h4, getVal_delKey_ne _ h3, getVal_delKey_ne _ h2,
    getVal_delKey_ne _ h1]

theorem hasKey_fillLatLon (reproject : ℚ → ℚ → ℚ × ℚ) (r : Row) (k : String)
    (h : hasKey r k = true) : hasKey (fillLatLon reproject r) k = true := by
  unfold fillLatLon
  split
  · split
    · exact hasKey_setVal_true _ _ _ _ (hasKey_setVal_true _ _ _ _ h)
    · exact h
  · exact h

/-! ## C1 and C2: `convert_to_latlon` -/

/-- C1: `convert_to_latlon` acts row by row; on a row with null `latitude` and
truthy `easting_rounded` it writes the reprojected latitude/longitude pair,
while a row with non-null `latitude`, or with a falsy planar coordinate, is
left unchanged by the filling loop — in particular an already-set latitude is
never overwritten. -/
theorem convert_to_latlon_fill_spec (reproject : ℚ → ℚ → ℚ × ℚ) (t : Table) :
    (∀ (i : ℕ) (r : Row), t[i]? = some r →
      (convert_to_latlon reproject t)[i]? =
        some (dropPlanar (fillLatLon reproject r))) ∧
    ∀ r : Row,
      (isnull (getVal r "latitude") = true →
        pyTruthy (getVal r "easting_rounded") = true →
        getVal (dropPlanar (fillLatLon reproject r)) "latitude" =
          Val.num (reproject (toRat (getVal r "easting_rounded"))
            (toRat (getVal r "northing_rounded"))).1 ∧
        getVal (dropPlanar (fillLatLon reproject r)) "longitude" =
          Val.num (reproject (toRat (getVal r "easting_rounded"))
            (toRat (getVal r "northing_rounded"))).2) ∧
      (isnull (getVal r "latitude") = false → fillLatLon reproject r = r) ∧
      (pyTruthy (getVal r "easting_rounded") = false →
        fillLatLon reproject r = r) ∧
      (isnull (getVal r "latitude") = false →
        getVal (dropPlanar (fillLatLon reproject r)) "latitude" =
          getVal r "latitude") := by
  constructor
  · intro i r h
    simp [convert_to_latlon, List.getElem?_map, h]
  · intro r
    refine ⟨?_, ?_, ?_, ?_⟩
    · intro h1 h2
      have e : fillLatLon reproject r =
          setVal (setVal r "latitude"
            (Val.num (reproject (toRat (getVal r "easting_rounded"))
              (toRat (getVal r "northing_rounded"))).1)) "longitude"
            (Val.num (reproject (toRat (getVal r "easting_rounded"))
              (toRat (getVal r "northing_rounded"))).2) := by
        simp [fillLatLon, h1, h2]
      rw [e]
      constructor
      · rw [getVal_dropPlanar_not_mem _ _ (by decide),
          getVal_setVal_ne _ (by decide), getVal_setVal_same]
      · rw [getVal_dropPlanar_not_mem _ _ (by decide), getVal_setVal_same]
    · intro h1
      simp [fillLatLon, h1]
    · intro h2
      by_cases h1 : isnull (getVal r "latitude") = true
      · simp [fillLatLon, h1, h2]
      · simp [fillLatLon, Bool.not_eq_true _ ▸ h1]
    · intro h1
      have e : fillLatLon reproject r = r := by simp [fillLatLon, h1]
      rw [e, getVal_dropPlanar_not_mem _ _ (by decide)]

/-- C2: after `convert_to_latlon`, the planar columns `easting_rounded`,
`northing_rounded`, `easting_m` and `northing_m` are absent from every row of
the result, unconditionally, and every other column of an input row is still
present in the corresponding output row (the row count being preserved). -/
theorem convert_to_latlon_drops_planar (reproject : ℚ → ℚ → ℚ × ℚ)
    (t : Table) :
    (convert_to_latlon reproject t).length = t.length ∧
    (∀ r' ∈ convert_to_latlon reproject t, ∀ c ∈ planarCols,
      hasKey r' c = false) ∧
    (∀ (i : ℕ) (r : Row), t[i]? = some r → ∃ r' : Row,
      (convert_to_latlon reproject t)[i]? = some r' ∧
      ∀ k, k ∉ planarCols → hasKey r k = true → hasKey r' k = true) := by
  refine ⟨by simp [convert_to_latlon], ?_, ?_⟩
  · intro r' hr' c hc
    obtain ⟨r0, _, rfl⟩ := List.mem_map.mp hr'
    exact hasKey_dropPlanar_mem _ _ hc
  · intro i r h
    refine ⟨dropPlanar (fillLatLon reproject r), ?_, ?_⟩
    · simp [convert_to_latlon, List.getElem?_map, h]
    · intro k hk hkr
      rw [hasKey_dropPlanar_not_mem _ _ hk]
      exact hasKey_fillLatLon _ _ _ hkr

/-! ## C3 and C10: `remove_incoherent_values` -/

/-- C3: the output of `remove_incoherent_values` is exactly the sub-sequence
of input rows whose `latitude` cell is a number strictly above 30; every
remaining row has latitude strictly greater than 30, and any input row whose
latitude is a number at or below 30 is absent from the output. -/
theorem remove_incoherent_values_spec (t : Table) :
    (remove_incoherent_values t).Sublist t ∧
    (∀ r : Row, r ∈ remove_incoherent_values t ↔
      (r ∈ t ∧ valGt30 (getVal r "latitude") = true)) ∧
    (∀ r ∈ remove_incoherent_values t, ∃ q : ℚ,
      getVal r "latitude" = Val.num q ∧ 30 < q) ∧
    (∀ r ∈ t, ∀ q : ℚ, getVal r "latitude" = Val.num q → q ≤ 30 →
      r ∉ remove_incoherent_values t) := by
  refine ⟨List.filter_sublist _, ?_, ?_, ?_⟩
  · intro r
    simp [remove_incoherent_values, List.mem_filter]
  · intro r hr
    rw [remove_incoherent_values, List.mem_filter] at hr
    obtain ⟨-, hv⟩ := hr
    cases hval : getVal r "latitude" with
    | num q =>
      refine ⟨q, rfl, ?_⟩
      rw [hval] at hv
      simpa [valGt30] using hv
    | null => rw [hval] at hv; simp [valGt30] at hv
    | str s => rw [hval] at hv; simp [valGt30] at hv
    | dt d => rw [hval] at hv; simp [valGt30] at hv
    | cat s dom => rw [hval] at hv; simp [valGt30] at hv
  · intro r _ q hq hle hmem
    rw [remove_incoherent_values, List.mem_filter] at hmem
    have hv := hmem.2
    rw [hq] at hv
    simp only [valGt30, decide_eq_true_eq] at hv
    exact absurd hv (not_lt.mpr hle)

/-- C10: `remove_incoherent_values` also discards every row whose latitude is
null: every surviving row has a non-null, numeric latitude strictly above 30,
and a null-latitude input row never survives the pass. -/
theorem remove_incoherent_values_drops_null (t : Table) :
    (∀ r ∈ remove_incoherent_values t,
      getVal r "latitude" ≠ Val.null ∧
      ∃ q : ℚ, getVal r "latitude" = Val.num q ∧ 30 < q) ∧
    (∀ r ∈ t, getVal r "latitude" = Val.null →
      r ∉ remove_incoherent_values t) := by
  constructor
  · intro r hr
    rw [remove_incoherent_values, List.mem_filter] at hr
    obtain ⟨-, hv⟩ := hr
    cases hval : getVal r "latitude" with
    | num q =>
      refine ⟨by simp [hval], q, rfl, ?_⟩
      rw [hval] at hv
      simpa [valGt30] using hv
    | null => rw [hval] at hv; simp [valGt30] at hv
    | str s => rw [hval] at hv; simp [valGt30] at hv
    | dt d => rw [hval] at hv; simp [valGt30] at hv
    | cat s dom => rw [hval] at hv; simp [valGt30] at hv
  · intro r _ hnull hmem
    rw [remove_incoherent_values, List.mem_filter] at hmem
    have hv := hmem.2
    rw [hnull] at hmem
    simp [valGt30] at hmem

/-! ## C4 and C5: `convert_to_datetime_format` -/

/-- C4: the timestamp column is parsed with the fixed `%d/%m/%Y %H:%M`
format; in particular the string "31/05/2022 18:38" parses to the structured
date-time 2022-05-31 18:38, both at parser level and through the pass. -/
theorem convert_to_datetime_format_example :
    parseDMYHM "31/05/2022 18:38" =
      some { year := 2022, month := 5, day := 31, hour := 18, minute := 38 } ∧
    convert_to_datetime_format
        [[("date_time_of_call", Val.str "31/05/2022 18:38")]] =
      some [[("date_time_of_call",
        Val.dt { year := 2022, month := 5, day := 31, hour := 18,
                 minute := 38 })]] := by
  constructor <;> decide

/-- C5: if any row's `date_time_of_call` cell is a string that does not
conform to the `%d/%m/%Y %H:%M` format, the whole pass fails (`none`); there
is no per-row recovery and no partially converted table. -/
theorem convert_to_datetime_format_fatal (t : Table) (r : Row) (s : String)
    (hr : r ∈ t) (hs : getVal r "date_time_of_call" = Val.str s)
    (hbad : parseDMYHM s = none) :
    convert_to_datetime_format t = none := by
  induction t with
  | nil => cases hr
  | cons r0 rest ih =>
    rcases List.mem_cons.mp hr with rfl | hmem
    · simp [convert_to_datetime_format, hs, parseCell, hbad]
    · rw [convert_to_datetime_format, ih hmem]
      cases parseCell (getVal r0 "date_time_of_call") <;> rfl

/-! ## C6: `remove_duplicate_values` -/

theorem mem_dropDupsAux (x : Row) (l : Table) : ∀ seen : List Row,
    x ∈ dropDupsAux seen l → x ∈ l ∧ x ∉ seen := by
  induction l with
  | nil => intro seen h; simp [dropDupsAux] at h
  | cons r rest ih =>
    intro seen h
    rw [dropDupsAux] at h
    by_cases hr : r ∈ seen
    · rw [if_pos hr] at h
      obtain ⟨h1, h2⟩ := ih seen h
      exact ⟨List.mem_cons_of_mem _ h1, h2⟩
    · rw [if_neg hr] at h
      rcases List.mem_cons.mp h with rfl | h'
      · exact ⟨List.mem_cons_self _ _, hr⟩
      · obtain ⟨h1, h2⟩ := ih _ h'
        exact ⟨List.mem_cons_of_mem _ h1,
          fun hx => h2 (List.mem_cons_of_mem _ hx)⟩

theorem dropDupsAux_sublist (l : Table) : ∀ seen : List Row,
    (dropDupsAux seen l).Sublist l := by
  induction l with
  | nil => intro seen; simp [dropDupsAux]
  | cons r rest ih =>
    intro seen
    rw [dropDupsAux]
    by_cases hr : r ∈ seen
    · rw [if_pos hr]
      exact List.Sublist.cons _ (ih seen)
    · rw [if_neg hr]
      exact List.Sublist.cons₂ _ (ih _)

theorem dropDupsAux_pairwise (l : Table) : ∀ seen : List Row,
    (dropDupsAux seen l).Pairwise (fun a b => a ≠ b) := by
  induction l with
  | nil => intro seen; simp [dropDupsAux]
  | cons r rest ih =>
    intro seen
    rw [dropDupsAux]
    by_cases hr : r ∈ seen
    · rw [if_pos hr]; exact ih seen
    · rw [if_neg hr]
      refine List.Pairwise.cons ?_ (ih _)
      intro x hx hrx
      exact (mem_dropDupsAux x rest _ hx).2 (hrx ▸ List.mem_cons_self _ _)

theorem dropDupsAux_complete (x : Row) (l : Table) : ∀ seen : List Row,
    x ∈ l → x ∉ seen → x ∈ dropDupsAux seen l := by
  induction l with
  | nil => intro seen h; cases h
  | cons r rest ih =>
    intro seen hx hns
    rw [dropDupsAux]
    by_cases hr : r ∈ seen
    · rw [if_pos hr]
      rcases List.mem_cons.mp hx with rfl | h'
      · exact absurd hr hns
      · exact ih seen h' hns
    · rw [if_neg hr]
      rcases List.mem_cons.mp hx with rfl | h'
      · exact List.mem_cons_self _ _
      · by_cases hxr : x = r
        · subst hxr; exact List.mem_cons_self _ _
        · refine List.mem_cons_of_mem _ (ih (r :: seen) h' ?_)
          intro hmem
          rcases List.mem_cons.mp hmem with h1 | h2
          · exact hxr h1
          · exact hns h2

theorem dropDupsAux_eq_spec (l : Table) : ∀ seen : List Row,
    dropDupsAux seen l =
      dedupKeepFirstSpec (l.filter (fun x => x ∉ seen)) := by
  induction l with
  | nil => intro seen; simp [dropDupsAux, dedupKeepFirstSpec]
  | cons r rest ih =>
    intro seen
    rw [dropDupsAux]
    by_cases hr : r ∈ seen
    · rw [if_pos hr]
      have hfil : (r :: rest).filter (fun x => x ∉ seen) =
          rest.filter (fun x => x ∉ seen) := by
        simp [List.filter_cons, hr]
      rw [hfil, ih]
    · rw [if_neg hr]
      have hfil : (r :: rest).filter (fun x => x ∉ seen) =
          r :: rest.filter (fun x => x ∉ seen) := by
        simp [List.filter_cons, hr]
      rw [hfil, dedupKeepFirstSpec, ih (r :: seen), List.filter_filter]
      congr 1
      congr 1
      refine List.filter_congr ?_
      intro x _
      by_cases h1 : x = r <;> by_cases h2 : x ∈ seen <;> simp [h1, h2, hr]

/-- C6: after `remove_duplicate_values` no two remaining rows are identical,
the relative order of retained rows is that of the input (the output is a
sub-sequence), every input row still occurs, and the pass coincides with the
keep-the-first-occurrence deduplication written from the spec's words. -/
theorem remove_duplicate_values_spec (t : Table) :
    (remove_duplicate_values t).Sublist t ∧
    (remove_duplicate_values t).Pairwise (fun a b => a ≠ b) ∧
    (∀ r ∈ t, r ∈ remove_duplicate_values t) ∧
    remove_duplicate_values t = dedupKeepFirstSpec t := by
  refine ⟨dropDupsAux_sublist t [], dropDupsAux_pairwise t [], ?_, ?_⟩
  · intro r hr
    exact dropDupsAux_complete r t [] hr (by simp)
  · rw [remove_duplicate_values, dropDupsAux_eq_spec]
    congr 1
    simp

/-! ## C7: `lower_case_animal_type` -/

theorem charToLower_eq (c : Char) :
    c.toLower =
      if c.toNat ≥ 65 ∧ c.toNat ≤ 90 then Char.ofNat (c.toNat + 32) else c :=
  rfl

theorem charToLower_idem (c : Char) : c.toLower.toLower = c.toLower := by
  by_cases h : c.toNat ≥ 65 ∧ c.toNat ≤ 90
  · have hv : Nat.isValidChar (c.toNat + 32) := Or.inl (by omega)
    have ht : (Char.ofNat (c.toNat + 32)).toNat = c.toNat + 32 := by
      unfold Char.ofNat
      rw [dif_pos hv]
      rfl
    rw [charToLower_eq c, if_pos h, charToLower_eq, ht, if_neg (by omega)]
  · rw [charToLower_eq c, if_neg h, charToLower_eq c, if_neg h]

theorem strLower_idem (s : String) : strLower (strLower s) = strLower s := by
  show String.mk ((String.mk (s.data.map Char.toLower)).data.map Char.toLower)
      = String.mk (s.data.map Char.toLower)
  rw [show (String.mk (s.data.map Char.toLower)).data
      = s.data.map Char.toLower from rfl, List.map_map]
  exact congrArg String.mk
    (List.map_congr_left fun a _ => charToLower_idem a)

theorem lowerVal_idem (v : Val) : lowerVal (lowerVal v) = lowerVal v := by
  cases v <;> simp [lowerVal, strLower_idem]

/-- C7: `lower_case_animal_type` maps every row to the same row with the
`animal_group_parent` cell lowercased, touching no other column and no row
count; a null cell stays null, and the pass is idempotent. -/
theorem lower_case_animal_type_spec (t : Table) :
    (lower_case_animal_type t).length = t.length ∧
    (∀ (i : ℕ) (r : Row), t[i]? = some r →
      (lower_case_animal_type t)[i]? = some
        (setVal r "animal_group_parent"
          (lowerVal (getVal r "animal_group_parent")))) ∧
    (∀ (r : Row) (k : String), k ≠ "animal_group_parent" →
      getVal (setVal r "animal_group_parent"
        (lowerVal (getVal r "animal_group_parent"))) k = getVal r k) ∧
    (∀ r : Row, getVal r "animal_group_parent" = Val.null →
      getVal (setVal r "animal_group_parent"
        (lowerVal (getVal r "animal_group_parent")))
        "animal_group_parent" = Val.null) ∧
    lower_case_animal_type (lower_case_animal_type t) =
      lower_case_animal_type t := by
  refine ⟨by simp [lower_case_animal_type], ?_, ?_, ?_, ?_⟩
  · intro i r h
    simp [lower_case_animal_type, List.getElem?_map, h]
  · intro r k hk
    exact getVal_setVal_ne _ hk _
  · intro r h
    rw [getVal_setVal_same, h]
    rfl
  · rw [lower_case_animal_type, lower_case_animal_type, List.map_map]
    refine List.map_congr_left ?_
    intro r _
    show setVal (setVal r "animal_group_parent"
        (lowerVal (getVal r "animal_group_parent"))) "animal_group_parent"
        (lowerVal (getVal (setVal r "animal_group_parent"
          (lowerVal (getVal r "animal_group_parent")))
          "animal_group_parent")) =
      setVal r "animal_group_parent"
        (lowerVal (getVal r "animal_group_parent"))
    rw [getVal_setVal_same, setVal_setVal, lowerVal_idem]

/-! ## C9: `remove_unused_columns` -/

theorem foldl_delete_feature (cs : List String) : ∀ t : Table,
    cs.foldl delete_feature t = t.map (fun r => cs.foldl delKey r) := by
  induction cs with
  | nil =>
    intro t
    simp [List.foldl]
  | cons c cs ih =>
    intro t
    rw [List.foldl_cons, ih, delete_feature, List.map_map]
    rfl

theorem foldl_delKey_eq_filter (cs : List String) : ∀ r : Row,
    cs.foldl delKey r = r.filter (fun p => p.1 ∉ cs) := by
  induction cs with
  | nil =>
    intro r
    simp [List.foldl]
  | cons c cs ih =>
    intro r
    rw [List.foldl_cons, ih, delKey, List.filter_filter]
    refine List.filter_congr ?_
    intro p _
    by_cases h1 : p.1 = c <;> by_cases h2 : p.1 ∈ cs <;> simp [h1, h2]

theorem hasKey_iff_exists (r : Row) (k : String) :
    hasKey r k = true ↔ ∃ v, (k, v) ∈ r := by
  induction r with
  | nil => simp [hasKey]
  | cons p rest ih =>
    obtain ⟨a, b⟩ := p
    by_cases h : a = k
    · subst h
      constructor
      · intro _
        exact ⟨b, List.mem_cons_self _ _⟩
      · intro _
        simp [hasKey]
    · simp only [hasKey, if_neg h, ih, List.mem_cons]
      constructor
      · rintro ⟨v, hv⟩
        exact ⟨v, Or.inr hv⟩
      · rintro ⟨v, hv | hv⟩
        · exact absurd (congrArg Prod.fst hv).symm h
        · exact ⟨v, hv⟩

/-- C9: `remove_unused_columns` removes every column of its fixed hardcoded
list from every row when present, succeeds on any table (an absent listed
column is a no-op: every unlisted column present in a row is still present),
and running it twice yields the same table as running it once. -/
theorem remove_unused_columns_spec (t : Table) :
    (remove_unused_columns t).length = t.length ∧
    (∀ r' ∈ remove_unused_columns t, ∀ c ∈ unusedColumns,
      hasKey r' c = false) ∧
    (∀ (i : ℕ) (r : Row), t[i]? = some r → ∃ r' : Row,
      (remove_unused_columns t)[i]? = some r' ∧
      ∀ k, k ∉ unusedColumns → hasKey r k = true → hasKey r' k = true) ∧
    remove_unused_columns (remove_unused_columns t) =
      remove_unused_columns t := by
  have heq : ∀ u : Table, remove_unused_columns u =
      u.map (fun r => r.filter (fun p => p.1 ∉ unusedColumns)) := by
    intro u
    rw [remove_unused_columns, foldl_delete_feature]
    exact List.map_congr_left fun r _ => foldl_delKey_eq_filter _ r
  refine ⟨by rw [heq]; simp, ?_, ?_, ?_⟩
  · intro r' hr' c hc
    rw [heq] at hr'
    obtain ⟨r0, -, rfl⟩ := List.mem_map.mp hr'
    by_contra hkey
    rw [Bool.not_eq_false] at hkey
    obtain ⟨v, hv⟩ := (hasKey_iff_exists _ _).mp hkey
    have hmem := (List.mem_filter.mp hv).2
    simp only [decide_eq_true_eq] at hmem
    exact hmem hc
  · intro i r h
    refine ⟨r.filter (fun p => p.1 ∉ unusedColumns), ?_, ?_⟩
    · rw [heq]
      simp [List.getElem?_map, h]
    · intro k hk hkr
      obtain ⟨v, hv⟩ := (hasKey_iff_exists _ _).mp hkr
      refine (hasKey_iff_exists _ _).mpr ⟨v, ?_⟩
      exact List.mem_filter.mpr ⟨hv, by simpa using hk⟩
  · rw [heq t, heq, List.map_map]
    refine List.map_congr_left ?_
    intro r _
    show (r.filter (fun p => p.1 ∉ unusedColumns)).filter
        (fun p => p.1 ∉ unusedColumns) = r.filter (fun p => p.1 ∉ unusedColumns)
    refine List.filter_eq_self.mpr ?_
    intro p hp
    exact (List.mem_filter.mp hp).2

/-! ## C8: `add_columns_for_date` -/

theorem dayOfWeek_le_six (d : DateTime) : d.dayOfWeek ≤ 6 := by
  unfold DateTime.dayOfWeek
  omega

theorem getD_mem_of_lt (l : List String) (i : ℕ) (h : i < l.length) :
    l.getD i "" ∈ l := by
  induction l generalizing i with
  | nil => simp at h
  | cons a l ih =>
    cases i with
    | zero => simp [List.getD]
    | succ j =>
      simp only [List.getD, List.getElem?_cons_succ]
      exact List.mem_cons_of_mem _ (ih j (by simpa using h))

theorem month_replace (n : ℕ) (h1 : 1 ≤ n) (h2 : n ≤ 12) :
    replaceVal month_dic (Val.num (n : ℚ)) =
      Val.str (monthNames.getD (n - 1) "") := by
  simp [replaceVal, month_dic, h1, h2]

theorem dow_replace (n : ℕ) (h : n ≤ 6) :
    replaceVal dayofweek_dic (Val.num (n : ℚ)) =
      Val.str (dayNames.getD n "") := by
  simp [replaceVal, dayofweek_dic, h]

theorem toCategorical_mem (dom : List String) (s : String) (h : s ∈ dom) :
    toCategorical dom (Val.str s) = Val.cat s dom := by
  simp [toCategorical, h]

/-- C8: for every row holding a structured date-time, `add_columns_for_date`
writes a `year` column with the date-time's year, a `month` column holding
the month name of the calendar-ordered January…December domain at the numeric
month's position (the categorical cell carrying that domain order), a
`dayofweek` column holding the weekday name of the calendar-ordered
Monday…Sunday domain at the numeric weekday's position, and an `hour` column
with the date-time's hour, an integer between 0 and 23. -/
theorem add_columns_for_date_spec (t : Table) :
    (add_columns_for_date t).length = t.length ∧
    (∀ (i : ℕ) (r : Row), t[i]? = some r →
      (add_columns_for_date t)[i]? = some (addDateRow r)) ∧
    ∀ (r : Row) (d : DateTime), getVal r "date_time_of_call" = Val.dt d →
      d.Valid →
      getVal (addDateRow r) "year" = Val.num (d.year : ℚ) ∧
      getVal (addDateRow r) "month" =
        Val.cat (monthNames.getD (d.month - 1) "") monthNames ∧
      monthNames.getD (d.month - 1) "" ∈ monthNames ∧
      getVal (addDateRow r) "dayofweek" =
        Val.cat (dayNames.getD d.dayOfWeek "") dayNames ∧
      dayNames.getD d.dayOfWeek "" ∈ dayNames ∧
      getVal (addDateRow r) "hour" = Val.num (d.hour : ℚ) ∧
      d.hour ≤ 23 ∧ d.dayOfWeek ≤ 6 := by
  refine ⟨by simp [add_columns_for_date], ?_, ?_⟩
  · intro i r h
    simp [add_columns_for_date, List.getElem?_map, h]
  · intro r d hv hval
    obtain ⟨-, -, hm1, hm2, -, -, hh, -⟩ := hval
    have hdow : d.dayOfWeek ≤ 6 := dayOfWeek_le_six d
    have hlenm : monthNames.length = 12 := rfl
    have hlenw : dayNames.length = 7 := rfl
    have hmem_m : monthNames.getD (d.month - 1) "" ∈ monthNames :=
      getD_mem_of_lt _ _ (by omega)
    have hmem_w : dayNames.getD d.dayOfWeek "" ∈ dayNames :=
      getD_mem_of_lt _ _ (by omega)
    simp only [addDateRow, hv]
    simp +decide only [getVal_setVal_ne, getVal_setVal_same]
    simp only [dtYear, dtMonth, dtDow, dtHour]
    rw [month_replace _ hm1 hm2, dow_replace _ hdow,
      toCategorical_mem _ _ hmem_m, toCategorical_mem _ _ hmem_w]
    exact ⟨by trivial, by trivial, hmem_m, by trivial, hmem_w, by trivial,
      hh, hdow⟩

/-! ## Witnesses: the claim theorems applied at concrete inputs -/

theorem convert_to_latlon_fill_witness :
    isnull (getVal [("latitude", Val.null), ("longitude", Val.null),
      ("easting_rounded", Val.num 530000),
      ("northing_rounded", Val.num 180000)] "latitude") = true ∧
    getVal (dropPlanar (fillLatLon (fun x y => (x + y, x - y))
      [("latitude", Val.null), ("longitude", Val.null),
       ("easting_rounded", Val.num 530000),
       ("northing_rounded", Val.num 180000)])) "latitude" =
      Val.num 710000 := by
  refine ⟨by decide, ?_⟩
  have h := ((convert_to_latlon_fill_spec (fun x y => (x + y, x - y))
    [[("latitude", Val.null), ("longitude", Val.null),
      ("easting_rounded", Val.num 530000),
      ("northing_rounded", Val.num 180000)]]).2
    [("latitude", Val.null), ("longitude", Val.null),
     ("easting_rounded", Val.num 530000),
     ("northing_rounded", Val.num 180000)]).1 (by decide) (by decide)
  refine h.1.trans ?_
  norm_num +decide [getVal, toRat]

theorem convert_to_latlon_drops_planar_witness :
    ∃ r' : Row,
      (convert_to_latlon (fun x y => (x + y, x - y))
        [[("latitude", Val.num 51), ("easting_rounded", Val.num 530000),
          ("borough", Val.str "x")]])[0]? = some r' ∧
      hasKey r' "easting_rounded" = false ∧ hasKey r' "borough" = true := by
  obtain ⟨r', h1, h2⟩ := (convert_to_latlon_drops_planar
    (fun x y => (x + y, x - y))
    [[("latitude", Val.num 51), ("easting_rounded", Val.num 530000),
      ("borough", Val.str "x")]]).2.2 0 _ rfl
  refine ⟨r', h1, ?_, h2 "borough" (by decide) (by decide)⟩
  exact (convert_to_latlon_drops_planar (fun x y => (x + y, x - y)) _).2.1
    r' (List.getElem?_mem h1) "easting_rounded" (by decide)

theorem remove_incoherent_values_witness :
    [("latitude", Val.num 10)] ∉ remove_incoherent_values
      [[("latitude", Val.num 51)], [("latitude", Val.num 10)]] ∧
    ∃ q : ℚ, getVal [("latitude", Val.num 51)] "latitude" = Val.num q ∧
      30 < q := by
  constructor
  · exact (remove_incoherent_values_spec _).2.2.2 [("latitude", Val.num 10)]
      (by decide) 10 (by decide) (by decide)
  · exact (remove_incoherent_values_spec
      [[("latitude", Val.num 51)], [("latitude", Val.num 10)]]).2.2.1
      [("latitude", Val.num 51)] (by decide)

theorem convert_to_datetime_format_fatal_witness :
    convert_to_datetime_format
      [[("date_time_of_call", Val.str "hello")]] = none :=
  convert_to_datetime_format_fatal _ [("date_time_of_call", Val.str "hello")]
    "hello" (by decide) (by decide) (by decide)

theorem remove_duplicate_values_witness :
    [("animal_group_parent", Val.str "Cat")] ∈ remove_duplicate_values
      [[("animal_group_parent", Val.str "Cat")],
       [("animal_group_parent", Val.str "Dog")],
       [("animal_group_parent", Val.str "Cat")]] ∧
    remove_duplicate_values
      [[("animal_group_parent", Val.str "Cat")],
       [("animal_group_parent", Val.str "Dog")],
       [("animal_group_parent", Val.str "Cat")]] =
      [[("animal_group_parent", Val.str "Cat")],
       [("animal_group_parent", Val.str "Dog")]] := by
  refine ⟨(remove_duplicate_values_spec _).2.2.1
    [("animal_group_parent", Val.str "Cat")] (by decide), by decide⟩

theorem lower_case_animal_type_witness :
    (lower_case_animal_type
      [[("animal_group_parent", Val.str "Cat"), ("x", Val.num 1)]])[0]? =
      some [("animal_group_parent", Val.str "cat"), ("x", Val.num 1)] := by
  have h := (lower_case_animal_type_spec
    [[("animal_group_parent", Val.str "Cat"), ("x", Val.num 1)]]).2.1 0
    [("animal_group_parent", Val.str "Cat"), ("x", Val.num 1)] rfl
  exact h.trans (by decide)

theorem add_columns_for_date_witness :
    getVal (addDateRow [("date_time_of_call",
        Val.dt { year := 2022, month := 5, day := 31, hour := 18,
                 minute := 38 })]) "month" = Val.cat "May" monthNames ∧
    getVal (addDateRow [("date_time_of_call",
        Val.dt { year := 2022, month := 5, day := 31, hour := 18,
                 minute := 38 })]) "dayofweek" =
      Val.cat "Tuesday" dayNames ∧
    getVal (addDateRow [("date_time_of_call",
        Val.dt { year := 2022, month := 5, day := 31, hour := 18,
                 minute := 38 })]) "year" = Val.num 2022 ∧
    getVal (addDateRow [("date_time_of_call",
        Val.dt { year := 2022, month := 5, day := 31, hour := 18,
                 minute := 38 })]) "hour" = Val.num 18 := by
  obtain ⟨hy, hm, -, hw, -, hh, -, -⟩ := (add_columns_for_date_spec
    [[("date_time_of_call",
       Val.dt { year := 2022, month := 5, day := 31, hour := 18,
                minute := 38 })]]).2.2
    [("date_time_of_call",
      Val.dt { year := 2022, month := 5, day := 31, hour := 18,
               minute := 38 })]
    { year := 2022, month := 5, day := 31, hour := 18, minute := 38 }
    rfl (by decide)
  exact ⟨hm.trans (by decide), hw.trans (by decide), hy.trans (by decide),
    hh.trans (by decide)⟩

theorem remove_unused_columns_witness :
    ∃ r' : Row,
      (remove_unused_columns
        [[("uprn", Val.num 5), ("latitude", Val.num 51)]])[0]? = some r' ∧
      hasKey r' "latitude" = true := by
  obtain ⟨r', h1, h2⟩ := (remove_unused_columns_spec
    [[("uprn", Val.num 5), ("latitude", Val.num 51)]]).2.2.1 0 _ rfl
  exact ⟨r', h1, h2 "latitude" (by decide) (by decide)⟩

theorem remove_incoherent_drops_null_witness :
    [("latitude", Val.null)] ∉ remove_incoherent_values
      [[("latitude", Val.null)], [("latitude", Val.num 51)]] :=
  (remove_incoherent_values_drops_null _).2 [("latitude", Val.null)]
    (by decide) rfl

end AnimalRescues
